import Mathlib

/-!
# Verification of the camera control system (`src/main.py`)

Shallow embedding of the concurrent frame-distribution and analysis
pipeline of `main.py`: the bounded work queues and their drop policy,
the acquisition callback's trigger gating, the analysis worker, the
encoder/broadcast version counter, the streaming generator, the SQLite
batch writer, the idempotent insert, and the `set_mode` route.

Frames are modelled as lists of integer intensity samples; wall-clock
times as integers; the numeric fit primitive (`get_gaussian_center`,
a scipy `curve_fit` call) is treated as an opaque parameter, in line
with the code's use of it as a black box returning a centroid or
`(None, None)`.
-/

namespace CameraControl

/-- A frame: a flat list of intensity samples (the 2-D layout is
irrelevant to every property proved here). -/
abbrev Frame := List Int

/-- `queue.Queue(maxsize=n)` restricted to the operations `main.py`
uses: `put_nowait` and a (front) `get`.  `items` is the FIFO contents,
`cap` the `maxsize`. -/
structure BQueue (α : Type) where
  items : List α
  cap : Nat
deriving DecidableEq

/-- `q.put_nowait(x)` as used inside a `try/except queue.Full: pass`
block: a total function that appends when the queue is below capacity
and drops the item otherwise.  The Boolean records whether the item
was accepted.  It never blocks and never propagates an exception. -/
def BQueue.put_nowait {α : Type} (q : BQueue α) (x : α) : BQueue α × Bool :=
  if q.items.length < q.cap then ({ q with items := q.items ++ [x] }, true)
  else (q, false)

/-- `q.get()` when an item is available: pop the front (FIFO). -/
def BQueue.get_front {α : Type} (q : BQueue α) : Option (α × BQueue α) :=
  match q.items with
  | [] => none
  | x :: xs => some (x, { q with items := xs })

/-- `processing_queue = queue.Queue(maxsize=10)` (analysis path). -/
def processing_queue : BQueue Frame := ⟨[], 10⟩

/-- `encode_queue = queue.Queue(maxsize=5)` (visualization path). -/
def encode_queue : BQueue Frame := ⟨[], 5⟩

/-- One client-visible queue operation: a `put_nowait` from the
acquisition callback or a `get` by the consuming worker. -/
inductive QOp (α : Type) where
  | enq (x : α)
  | deq
deriving DecidableEq

/-- Accumulated queue history: current queue, items dequeued so far
(in order), and items accepted (not dropped) so far (in order). -/
structure QTrace (α : Type) where
  q : BQueue α
  dequeued : List α
  retained : List α

/-- One step of the queue lifecycle: an enqueue uses the non-blocking
`put_nowait` (recording the item under `retained` only when accepted);
a dequeue pops the front when one exists. -/
def queueStep {α : Type} (t : QTrace α) (op : QOp α) : QTrace α :=
  match op with
  | .enq x =>
      let (q', ok) := t.q.put_nowait x
      { q := q', dequeued := t.dequeued,
        retained := t.retained ++ if ok then [x] else [] }
  | .deq =>
      match t.q.get_front with
      | none => t
      | some (y, q') => { q := q', dequeued := t.dequeued ++ [y], retained := t.retained }

/-- Run a sequence of queue operations. -/
def queueRun {α : Type} (t : QTrace α) (ops : List (QOp α)) : QTrace α :=
  ops.foldl queueStep t

/-- Mode flag: `IS_TRIGGER_MODE` (`False` = continuous, `True` = triggered). -/
inductive Mode where
  | continuous
  | triggered
deriving DecidableEq

/-- `cv2.minMaxLoc(frame_copy)`'s `maxVal`: the peak intensity of the
frame (0 for the degenerate empty frame). -/
def peakIntensity (frame : Frame) : Int :=
  frame.foldr max 0

/-- The two queues the acquisition callback fans out to. -/
structure CallbackQueues where
  encode_queue : BQueue Frame
  processing_queue : BQueue Frame
deriving DecidableEq

/-- `on_new_image` (lines 227-251): always attempt a non-blocking
enqueue of the frame copy to the encode queue (dropping on full);
then, only when `IS_TRIGGER_MODE`, check `maxVal > 30` and on success
attempt a non-blocking enqueue to the processing queue. -/
def on_new_image (mode : Mode) (frame : Frame) (s : CallbackQueues) : CallbackQueues :=
  let enc := (s.encode_queue.put_nowait frame).1
  let proc :=
    match mode with
    | .continuous => s.processing_queue
    | .triggered =>
        if peakIntensity frame > 30 then (s.processing_queue.put_nowait frame).1
        else s.processing_queue
  { encode_queue := enc, processing_queue := proc }

/-! ## Encoder thread and frame broadcast (`encoder_thread`, lines 182-220) -/

/-- The shared broadcast cell guarded by `frame_condition`:
`global_jpeg_bytes` and `frame_id` (initially `None` and `0`,
lines 42-45). -/
structure BroadcastState where
  frame_id : Nat
  global_jpeg_bytes : Option (List Nat)
deriving DecidableEq

/-- Initial broadcast state (`frame_id = 0`, `global_jpeg_bytes = None`). -/
def initBroadcast : BroadcastState := { frame_id := 0, global_jpeg_bytes := none }

/-- One iteration of `encoder_thread` acting on a dequeued frame,
abstracted over the heavy rendering/encoding pipeline: `encoded` is
`some bytes` when `cv2.imencode` returned `ret = True` and `none`
otherwise.  Only on success does the thread take `frame_condition`,
replace `global_jpeg_bytes` and increment `frame_id`.  The second
component lists the versions published by this step. -/
def encoderStep (s : BroadcastState) (encoded : Option (List Nat)) :
    BroadcastState × List Nat :=
  match encoded with
  | some b => ({ frame_id := s.frame_id + 1, global_jpeg_bytes := some b }, [s.frame_id + 1])
  | none => (s, [])

/-- Run the encoder over a sequence of encode outcomes, collecting all
published versions in order. -/
def encoderRun (s : BroadcastState) (outcomes : List (Option (List Nat))) :
    BroadcastState × List Nat :=
  match outcomes with
  | [] => (s, [])
  | o :: rest =>
      ((encoderRun (encoderStep s o).1 rest).1,
        (encoderStep s o).2 ++ (encoderRun (encoderStep s o).1 rest).2)

/-! ## Streaming sessions (`imagegenerator`, lines 257-284) -/

/-- Events affecting one streaming session: a publish by the encoder
(incrementing the global `frame_id`), or the session's generator loop
passing `frame_condition.wait_for(frame_id > my_last_frame_id)`.
A `wake` while no newer version exists leaves the session waiting
(`wait_for` simply does not return). -/
inductive SEvent where
  | publish
  | wake
deriving DecidableEq

/-- One session interleaved with the encoder: the global `frame_id`,
this session's `my_last_frame_id` (initialised to `0`, line 260), and
the log of observations, each recorded as
`(observed version, global frame_id at observation time)`. -/
structure SessionState where
  version : Nat
  my_last_frame_id : Nat
  observed : List (Nat × Nat)

/-- A session starting while the global counter is already at `v0`. -/
def initSession (v0 : Nat) : SessionState :=
  { version := v0, my_last_frame_id := 0, observed := [] }

/-- One event step.  On `wake`, the generator proceeds only when
`frame_id > my_last_frame_id` (the `wait_for` predicate); it then
reads the current bytes and sets `my_last_frame_id = frame_id`
(lines 268-274), observing exactly the current version. -/
def sessionStep (s : SessionState) (e : SEvent) : SessionState :=
  match e with
  | .publish => { s with version := s.version + 1 }
  | .wake =>
      if s.my_last_frame_id < s.version then
        { s with my_last_frame_id := s.version,
                 observed := s.observed ++ [(s.version, s.version)] }
      else s

/-- Run a session against a sequence of events. -/
def sessionRun (s : SessionState) (es : List SEvent) : SessionState :=
  es.foldl sessionStep s

/-! ## Sensor reading and the analysis worker (`analysis_loop`, lines 165-179) -/

/-- One sensor read: `some v` when `t.temperature` succeeds, `none`
when it raises.  `readAll` is the list comprehension
`[t.temperature for t in temp_sensors]`: it raises (returns `none`)
iff some individual read raises — over an empty sensor list it
returns `some []` without raising. -/
def readAll : List (Option Int) → Option (List Int)
  | [] => some []
  | s :: rest =>
      match s, readAll rest with
      | some v, some vs => some (v :: vs)
      | _, _ => none

/-- Lines 173-174: `try: temps = [t.temperature for t in temp_sensors]
except: temps = [0, 0, 0, 0]`.  The zero vector is substituted only
when the comprehension raises. -/
def temps_of (sensors : List (Option Int)) : List Int :=
  match readAll sensors with
  | some vs => vs
  | none => [0, 0, 0, 0]

/-- A measurement row as placed on `write_queue`: timestamp, centroid
coordinates, then one value per successfully-read sensor.  Modelled as
a flat list of integers (decimal rounding is the identity on the
integer-valued samples used here and does not affect row structure). -/
abbrev MRow := List Int

/-- Analysis-worker shared state: the global centroid estimate
`cX, cY` and the unbounded `write_queue` contents. -/
structure AnalysisState where
  cX : Option Int
  cY : Option Int
  write_queue : List MRow

/-- One iteration of `analysis_loop` on a dequeued frame.  `fit` is
the opaque fit primitive `get_gaussian_center` (it returns
`(None, None)` on any internal failure, modelled as `none`).  On a
successful fit the worker updates `cX, cY`, reads the sensor vector
with zero-substitution on a raising read, and enqueues exactly one
row; on a failed fit it does nothing. -/
def analysis_loop_step (fit : Frame → Option (Int × Int))
    (sensors : List (Option Int)) (timestamp : Int)
    (s : AnalysisState) (frame : Frame) : AnalysisState :=
  match fit frame with
  | some (nx, ny) =>
      { cX := some nx, cY := some ny,
        write_queue := s.write_queue ++ [[timestamp, nx, ny] ++ temps_of sensors] }
  | none => s

/-! ## Persistence writer (`sqlite_writer_loop`, lines 134-162) -/

/-- Writer-loop local state: `last_commit_time`, `pending_writes`, and
(for specification purposes) the log of commits performed, each
recorded as `(commit time, batch size)`. -/
structure WriterState where
  last_commit_time : Int
  pending_writes : Nat
  commits : List (Int × Nat)

/-- Events driving one iteration of the writer loop: `row t` — a row
arrived from `write_queue` at wall-clock time `t`; `timeout t` — the
1-second `get(timeout=1)` expired with the queue empty. -/
inductive WEvent where
  | row (t : Int)
  | timeout (t : Int)
deriving DecidableEq

/-- One iteration of `sqlite_writer_loop`.  After inserting a row it
commits when `pending_writes > 0` and either more than 1 second has
elapsed since the last commit or the pending count reached 50
(line 147, updating `last_commit_time`); on an empty-queue timeout
with a nonzero pending batch it commits immediately (lines 151-154,
leaving `last_commit_time` unchanged, as the code does). -/
def sqlite_writer_step (s : WriterState) (e : WEvent) : WriterState :=
  match e with
  | .row t =>
      let p := s.pending_writes + 1
      if 0 < p ∧ (t - s.last_commit_time > 1 ∨ 50 ≤ p) then
        { last_commit_time := t, pending_writes := 0, commits := s.commits ++ [(t, p)] }
      else { s with pending_writes := p }
  | .timeout t =>
      if 0 < s.pending_writes then
        { s with pending_writes := 0, commits := s.commits ++ [(t, s.pending_writes)] }
      else s

/-- Run the writer loop over a sequence of events. -/
def writerRun (s : WriterState) (es : List WEvent) : WriterState :=
  es.foldl sqlite_writer_step s

/-- Count of `row` events in an event list. -/
def rowCount (es : List WEvent) : Nat :=
  (es.filter fun e => match e with | .row _ => true | .timeout _ => false).length

/-- Total number of rows across the logged commits. -/
def committedRows (s : WriterState) : Nat :=
  (s.commits.map Prod.snd).sum

/-! ## Durable store (`init_db` lines 56-70, insert at lines 141-144) -/

/-- A stored measurement row: the `timestamp` primary key plus the six
numeric columns. -/
structure DBRow where
  timestamp : Int
  fields : List Int
deriving DecidableEq

/-- `INSERT OR IGNORE INTO measurements VALUES (...)` against a table
whose `timestamp` column is the primary key: the row is appended iff
no stored row already carries its timestamp; otherwise the statement
is a no-op and raises no error (a total function). -/
def insertOrIgnore (db : List DBRow) (r : DBRow) : List DBRow :=
  if db.any fun x => x.timestamp = r.timestamp then db else db ++ [r]

/-- Number of stored rows carrying timestamp `t`. -/
def rowsWithTimestamp (db : List DBRow) (t : Int) : Nat :=
  (db.filter fun x => x.timestamp = t).length

/-! ## Mode change (`set_mode` route, lines 318-332) -/

/-- The process-wide state touched by `/api/set_mode`:
`IS_TRIGGER_MODE`, the centroid estimate `cX, cY`, and the analysis
(`processing`) queue. -/
structure ServerState where
  is_trigger_mode : Bool
  cX : Option Int
  cY : Option Int
  processing_queue : BQueue Frame
deriving DecidableEq

/-- `set_mode` on the (already lower-cased) `mode` query parameter.
`"trigger"` sets `IS_TRIGGER_MODE = True`; `"continuous"` clears it,
resets `cX, cY` to `None` and clears `processing_queue`; any other
string falls through to the unconditional
`return jsonify({"status": "success", "mode": mode})`.  The returned
pair is the JSON body `(status, mode)`. -/
def set_mode (mode : String) (s : ServerState) : ServerState × (String × String) :=
  if mode = "trigger" then
    ({ s with is_trigger_mode := true }, ("success", mode))
  else if mode = "continuous" then
    ({ is_trigger_mode := false, cX := none, cY := none,
       processing_queue := { s.processing_queue with items := [] } }, ("success", mode))
  else (s, ("success", mode))

/-! ## Theorems -/

/-- C4: for every incoming frame the acquisition callback always
attempts a non-blocking enqueue to the visualization (encode) queue;
in `Triggered` mode the frame is appended to the analysis queue iff
its peak intensity exceeds 30 and the queue is below capacity; in
`Continuous` mode the analysis queue is never touched. -/
theorem on_new_image_gating (mode : Mode) (frame : Frame) (s : CallbackQueues) :
    (on_new_image mode frame s).encode_queue = (s.encode_queue.put_nowait frame).1
    ∧ (mode = .continuous → (on_new_image mode frame s).processing_queue = s.processing_queue)
    ∧ (mode = .triggered →
        (on_new_image mode frame s).processing_queue.items =
          s.processing_queue.items ++
            (if peakIntensity frame > 30 ∧
                s.processing_queue.items.length < s.processing_queue.cap
             then [frame] else [])) := by
  cases mode with
  | continuous => exact ⟨rfl, fun _ => rfl, fun h => Mode.noConfusion h⟩
  | triggered =>
      refine ⟨rfl, fun h => Mode.noConfusion h, fun _ => ?_⟩
      show (if peakIntensity frame > 30
            then (s.processing_queue.put_nowait frame).1
            else s.processing_queue).items = _
      by_cases hp : peakIntensity frame > 30
      · by_cases hl : s.processing_queue.items.length < s.processing_queue.cap <;>
          simp [BQueue.put_nowait, hp, hl]
      · simp [hp]

/-- Witness for C4 at concrete inputs: a frame of peak intensity 50 in
`Triggered` mode is admitted to the (initially empty) analysis queue. -/
theorem on_new_image_gating_witness :
    (on_new_image Mode.triggered [50]
        ⟨encode_queue, processing_queue⟩).processing_queue.items =
      processing_queue.items ++ [[50]] := by
  have h := (on_new_image_gating Mode.triggered [50]
      ⟨encode_queue, processing_queue⟩).2.2 rfl
  rw [h]
  decide

/-- C5: for every frame consumed by the analysis worker, a successful
fit appends exactly one measurement row to the persistence queue (the
row built from that fit's centroid), and a failed fit appends zero
rows; so every enqueued row corresponds to exactly one successful
fit. -/
theorem analysis_fit_rows (fit : Frame → Option (Int × Int))
    (sensors : List (Option Int)) (timestamp : Int)
    (s : AnalysisState) (frame : Frame) :
    (analysis_loop_step fit sensors timestamp s frame).write_queue =
      s.write_queue ++
        (match fit frame with
         | some (nx, ny) => [[timestamp, nx, ny] ++ temps_of sensors]
         | none => [])
    ∧ (analysis_loop_step fit sensors timestamp s frame).write_queue.length =
        s.write_queue.length +
          (match fit frame with | some _ => 1 | none => 0) := by
  unfold analysis_loop_step
  cases h : fit frame with
  | none => simp
  | some p => cases p with | mk nx ny => simp

/-- C6: `set_mode` with `"continuous"` clears the trigger flag, empties
the analysis queue (whatever it held, its capacity preserved) and
resets the centroid estimate to unknown; with `"trigger"` it sets the
trigger flag and changes nothing else. -/
theorem set_mode_continuous_trigger (s : ServerState) :
    (set_mode "continuous" s).1.is_trigger_mode = false
    ∧ (set_mode "continuous" s).1.processing_queue.items = []
    ∧ (set_mode "continuous" s).1.processing_queue.items.length = 0
    ∧ (set_mode "continuous" s).1.processing_queue.cap = s.processing_queue.cap
    ∧ (set_mode "continuous" s).1.cX = none
    ∧ (set_mode "continuous" s).1.cY = none
    ∧ (set_mode "trigger" s).1 = { s with is_trigger_mode := true } := by
  simp [set_mode]

/-- C10: `set_mode` with a string that is neither `"trigger"` nor
`"continuous"` returns the success body while leaving the whole server
state (mode flag, analysis queue, centroid estimate) unchanged. -/
theorem set_mode_unknown_noop (mode : String) (s : ServerState)
    (h1 : mode ≠ "trigger") (h2 : mode ≠ "continuous") :
    set_mode mode s = (s, ("success", mode)) := by
  simp [set_mode, h1, h2]

/-- Witness for C10: `mode = "foo"` on a populated state. -/
theorem set_mode_unknown_noop_witness :
    ("foo" : String) ≠ "trigger" ∧ ("foo" : String) ≠ "continuous"
    ∧ set_mode "foo" ⟨true, some 1, some 2, ⟨[[3]], 10⟩⟩ =
        (⟨true, some 1, some 2, ⟨[[3]], 10⟩⟩, ("success", "foo")) :=
  ⟨by decide, by decide,
    set_mode_unknown_noop "foo" ⟨true, some 1, some 2, ⟨[[3]], 10⟩⟩ (by decide) (by decide)⟩

/-- C7 (code evaluated at the failing input): when sensor
initialisation failed at startup, `temp_sensors = []`, the list
comprehension raises nothing and yields `[]` — no four-zero vector is
substituted, and the enqueued row has 3 fields instead of the 7 the
`INSERT` statement's placeholders require.  The substitution does
happen when an individual sensor read raises. -/
theorem sensor_zero_vector_bug :
    temps_of [] = []
    ∧ (temps_of []).length ≠ 4
    ∧ (analysis_loop_step (fun _ => some (3, 4)) [] 100
        ⟨none, none, []⟩ [50]).write_queue = [[100, 3, 4]]
    ∧ (analysis_loop_step (fun _ => some (3, 4)) [] 100
        ⟨none, none, []⟩ [50]).write_queue.all (fun r => r.length = 3)
    ∧ temps_of [some 21, none, some 22, some 23] = [0, 0, 0, 0]
    ∧ (analysis_loop_step (fun _ => some (3, 4)) [some 21, none, some 22, some 23] 100
        ⟨none, none, []⟩ [50]).write_queue = [[100, 3, 4, 0, 0, 0, 0]] := by
  refine ⟨rfl, by decide, rfl, rfl, rfl, rfl⟩

/-- C9: inserting a measurement row whose timestamp is already stored
is a no-op (idempotent duplicate rejection by the primary key), and
submitting two rows with the same fresh timestamp leaves exactly one
stored row for that timestamp. -/
theorem insert_or_ignore_idempotent (db : List DBRow) (r r' : DBRow)
    (hts : r'.timestamp = r.timestamp)
    (hfresh : rowsWithTimestamp db r.timestamp = 0) :
    insertOrIgnore (insertOrIgnore db r) r' = insertOrIgnore db r
    ∧ rowsWithTimestamp (insertOrIgnore (insertOrIgnore db r) r') r.timestamp = 1 := by
  have hmem : (insertOrIgnore db r).any (fun x => x.timestamp = r.timestamp) = true := by
    unfold insertOrIgnore
    by_cases h : db.any fun x => x.timestamp = r.timestamp
    · simp [h]
    · simp [h]
  have hstep : insertOrIgnore (insertOrIgnore db r) r' = insertOrIgnore db r := by
    have hdef : insertOrIgnore (insertOrIgnore db r) r' =
        if (insertOrIgnore db r).any (fun x => x.timestamp = r'.timestamp) = true
        then insertOrIgnore db r else insertOrIgnore db r ++ [r'] := rfl
    rw [hdef, hts]
    simp [hmem]
  refine ⟨hstep, ?_⟩
  rw [hstep]
  have hempty : db.filter (fun x => decide (x.timestamp = r.timestamp)) = [] := by
    have := hfresh
    unfold rowsWithTimestamp at this
    exact List.length_eq_zero.mp this
  have hany : db.any (fun x => x.timestamp = r.timestamp) = false := by
    rw [List.any_eq_false]
    intro x hx
    intro hxts
    have : x ∈ db.filter (fun x => decide (x.timestamp = r.timestamp)) :=
      List.mem_filter.mpr ⟨hx, by simpa using hxts⟩
    rw [hempty] at this
    exact absurd this (List.not_mem_nil x)
  unfold insertOrIgnore rowsWithTimestamp
  rw [hany]
  simp [List.filter_append, hempty]

/-- Witness for C9: the same timestamp submitted twice to an empty
store leaves exactly one row with that timestamp. -/
theorem insert_or_ignore_idempotent_witness :
    (⟨5, [9, 9]⟩ : DBRow).timestamp = (⟨5, [1, 2]⟩ : DBRow).timestamp
    ∧ rowsWithTimestamp [] (5 : Int) = 0
    ∧ rowsWithTimestamp (insertOrIgnore (insertOrIgnore [] ⟨5, [1, 2]⟩) ⟨5, [9, 9]⟩) 5 = 1 :=
  ⟨rfl, rfl,
    (insert_or_ignore_idempotent [] ⟨5, [1, 2]⟩ ⟨5, [9, 9]⟩ rfl rfl).2⟩

/-- One queue operation preserves the lifecycle invariant: the
accepted enqueues are exactly the dequeued items followed by the
current contents (FIFO), occupancy stays within capacity, and the
capacity never changes. -/
theorem queueStep_preserves {α : Type} (t : QTrace α) (op : QOp α)
    (h1 : t.retained = t.dequeued ++ t.q.items)
    (h2 : t.q.items.length ≤ t.q.cap) :
    (queueStep t op).retained = (queueStep t op).dequeued ++ (queueStep t op).q.items
    ∧ (queueStep t op).q.items.length ≤ (queueStep t op).q.cap
    ∧ (queueStep t op).q.cap = t.q.cap := by
  cases op with
  | enq x =>
      by_cases h : t.q.items.length < t.q.cap
      · refine ⟨?_, ?_, ?_⟩ <;> simp [queueStep, BQueue.put_nowait, h, h1]
        omega
      · refine ⟨?_, ?_, ?_⟩ <;> simp [queueStep, BQueue.put_nowait, h, h1, h2]
  | deq =>
      cases hit : t.q.items with
      | nil =>
          refine ⟨?_, ?_, ?_⟩ <;> simp [queueStep, BQueue.get_front, hit, h1]
      | cons y ys =>
          rw [hit] at h1 h2
          refine ⟨?_, ?_, ?_⟩ <;> simp [queueStep, BQueue.get_front, hit, h1]
          simp at h2
          omega

/-- The queue-lifecycle invariant holds along any operation sequence. -/
theorem queueRun_inv {α : Type} (ops : List (QOp α)) (t0 : QTrace α)
    (h1 : t0.retained = t0.dequeued ++ t0.q.items)
    (h2 : t0.q.items.length ≤ t0.q.cap) :
    (queueRun t0 ops).retained = (queueRun t0 ops).dequeued ++ (queueRun t0 ops).q.items
    ∧ (queueRun t0 ops).q.items.length ≤ (queueRun t0 ops).q.cap
    ∧ (queueRun t0 ops).q.cap = t0.q.cap := by
  induction ops generalizing t0 with
  | nil => exact ⟨h1, h2, rfl⟩
  | cons op rest ih =>
      have hstep := queueStep_preserves t0 op h1 h2
      have hrest := ih (queueStep t0 op) hstep.1 hstep.2.1
      exact ⟨hrest.1, hrest.2.1, hstep.2.2 ▸ hrest.2.2⟩

/-- C3: the encode queue has capacity 5 and the analysis queue
capacity 10; a `put_nowait` against a full queue is a total no-op
returning `false` (the item is dropped — the caller is never blocked
and no exception escapes); and along every operation sequence the
occupancy never exceeds the initial capacity while the accepted
(non-dropped) items are dequeued in FIFO order: at every point the
accepted enqueues equal the dequeued items followed by the current
contents. -/
theorem bounded_queue_safety :
    encode_queue.cap = 5 ∧ processing_queue.cap = 10
    ∧ (∀ (q : BQueue Frame) (x : Frame),
        ¬ q.items.length < q.cap → q.put_nowait x = (q, false))
    ∧ (∀ (ops : List (QOp Frame)) (t0 : QTrace Frame),
        t0.retained = t0.dequeued ++ t0.q.items →
        t0.q.items.length ≤ t0.q.cap →
        (queueRun t0 ops).retained =
            (queueRun t0 ops).dequeued ++ (queueRun t0 ops).q.items
        ∧ (queueRun t0 ops).q.items.length ≤ t0.q.cap) := by
  refine ⟨rfl, rfl, ?_, ?_⟩
  · intro q x h
    simp [BQueue.put_nowait, h]
  · intro ops t0 h1 h2
    have h := queueRun_inv ops t0 h1 h2
    exact ⟨h.1, h.2.2 ▸ h.2.1⟩

/-- Witness for C3: the spec's scenario — capacity 2, three frames
enqueued back-to-back, then one dequeue; occupancy stayed within 2 and
the retained items come out in FIFO order. -/
theorem bounded_queue_safety_witness :
    (([] : List Frame) = [] ++ [])
    ∧ (([] : List Frame).length ≤ 2)
    ∧ ((queueRun (⟨⟨[], 2⟩, [], []⟩ : QTrace Frame)
          [QOp.enq [1], QOp.enq [2], QOp.enq [3], QOp.deq]).retained =
        (queueRun (⟨⟨[], 2⟩, [], []⟩ : QTrace Frame)
          [QOp.enq [1], QOp.enq [2], QOp.enq [3], QOp.deq]).dequeued ++
        (queueRun (⟨⟨[], 2⟩, [], []⟩ : QTrace Frame)
          [QOp.enq [1], QOp.enq [2], QOp.enq [3], QOp.deq]).q.items
      ∧ (queueRun (⟨⟨[], 2⟩, [], []⟩ : QTrace Frame)
          [QOp.enq [1], QOp.enq [2], QOp.enq [3], QOp.deq]).q.items.length ≤ 2) :=
  ⟨rfl, by decide,
    bounded_queue_safety.2.2.2
      [QOp.enq [1], QOp.enq [2], QOp.enq [3], QOp.deq]
      ⟨⟨[], 2⟩, [], []⟩ rfl (by decide)⟩

/-- One writer iteration conserves rows: every row event adds exactly
one row, accounted either in the pending batch or in some commit. -/
theorem writer_step_conservation (s : WriterState) (e : WEvent) :
    committedRows (sqlite_writer_step s e) + (sqlite_writer_step s e).pending_writes =
      committedRows s + s.pending_writes + rowCount [e] := by
  cases e with
  | row t =>
      simp only [sqlite_writer_step]
      by_cases h : t - s.last_commit_time > 1 ∨ 50 ≤ s.pending_writes + 1
      · rw [if_pos ⟨Nat.succ_pos _, h⟩]
        simp [committedRows, rowCount]
        omega
      · rw [if_neg (fun hc => h hc.2)]
        simp [committedRows, rowCount]
        omega
  | timeout t =>
      simp only [sqlite_writer_step]
      by_cases h : 0 < s.pending_writes
      · rw [if_pos h]
        simp [committedRows, rowCount]
      · rw [if_neg h]
        simp [committedRows, rowCount]

/-- Row conservation along any writer event sequence. -/
theorem writerRun_conservation (es : List WEvent) (s : WriterState) :
    committedRows (writerRun s es) + (writerRun s es).pending_writes =
      committedRows s + s.pending_writes + rowCount es := by
  induction es generalizing s with
  | nil => simp [writerRun, rowCount]
  | cons e rest ih =>
      have hrest := ih (sqlite_writer_step s e)
      have hstep := writer_step_conservation s e
      have hsplit : rowCount (e :: rest) = rowCount [e] + rowCount rest := by
        cases e with
        | row t => simp [rowCount, List.filter]; omega
        | timeout t => simp [rowCount, List.filter]
      have hrun : writerRun s (e :: rest) = writerRun (sqlite_writer_step s e) rest := rfl
      rw [hrun]
      omega

/-- C8: after inserting a row at time `t`, the writer commits the whole
pending batch exactly when more than 1 second has elapsed since the
last commit or the batch has reached 50 rows (whichever came first),
resetting the pending count to zero; on an empty-queue timeout the
pending count is always zero afterwards, the nonzero batch having been
committed immediately; and across any event sequence, every accepted
row is accounted for in a commit or in the current pending batch. -/
theorem writer_commit_policy :
    (∀ (s : WriterState) (t : Int),
        (sqlite_writer_step s (.row t)).commits =
          s.commits ++
            (if t - s.last_commit_time > 1 ∨ 50 ≤ s.pending_writes + 1
             then [(t, s.pending_writes + 1)] else [])
        ∧ ((t - s.last_commit_time > 1 ∨ 50 ≤ s.pending_writes + 1) ↔
            (sqlite_writer_step s (.row t)).pending_writes = 0))
    ∧ (∀ (s : WriterState) (t : Int),
        (sqlite_writer_step s (.timeout t)).pending_writes = 0
        ∧ (sqlite_writer_step s (.timeout t)).commits =
            s.commits ++
              (if 0 < s.pending_writes then [(t, s.pending_writes)] else []))
    ∧ (∀ (es : List WEvent) (s : WriterState),
        committedRows (writerRun s es) + (writerRun s es).pending_writes =
          committedRows s + s.pending_writes + rowCount es) := by
  refine ⟨?_, ?_, fun es s => writerRun_conservation es s⟩
  · intro s t
    simp only [sqlite_writer_step]
    by_cases h : t - s.last_commit_time > 1 ∨ 50 ≤ s.pending_writes + 1
    · rw [if_pos ⟨Nat.succ_pos _, h⟩, if_pos h]
      exact ⟨rfl, iff_of_true h rfl⟩
    · rw [if_neg (fun hc => h hc.2), if_neg h]
      exact ⟨by simp, ⟨fun hc => absurd hc h, fun he => absurd he (Nat.succ_ne_zero _)⟩⟩
  · intro s t
    simp only [sqlite_writer_step]
    by_cases h : 0 < s.pending_writes
    · rw [if_pos h, if_pos h]
      exact ⟨rfl, rfl⟩
    · rw [if_neg h, if_neg h]
      exact ⟨by omega, by simp⟩

/-- Along any encoder run, the version counter never decreases and the
published versions are exactly the consecutive integers from one past
the starting version up to the final version. -/
theorem encoderRun_pubs (outs : List (Option (List Nat))) (s : BroadcastState) :
    s.frame_id ≤ (encoderRun s outs).1.frame_id
    ∧ (encoderRun s outs).2 =
        List.range' (s.frame_id + 1) ((encoderRun s outs).1.frame_id - s.frame_id) := by
  induction outs generalizing s with
  | nil => simp [encoderRun]
  | cons o rest ih =>
      cases o with
      | none =>
          have h := ih s
          simpa [encoderRun, encoderStep] using h
      | some b =>
          have h := ih ⟨s.frame_id + 1, some b⟩
          have hle := h.1
          simp only [encoderStep] at hle
          constructor
          · simp only [encoderRun, encoderStep]
            omega
          · simp only [encoderRun, encoderStep, h.2]
            rw [show (encoderRun ⟨s.frame_id + 1, some b⟩ rest).1.frame_id - s.frame_id =
                ((encoderRun ⟨s.frame_id + 1, some b⟩ rest).1.frame_id - (s.frame_id + 1)) + 1
              by omega]
            rw [List.range'_succ]
            rfl

/-- C2: the broadcast version counter starts at 0; a failed encode
publishes nothing and leaves the state untouched (the counter is never
incremented without a publish); each publish increments the counter by
exactly one and publishes that new version; and from startup the
published versions are exactly `1, 2, ..., frame_id` — consecutive,
pairwise distinct, one per publication. -/
theorem broadcast_version_counter :
    initBroadcast.frame_id = 0
    ∧ (∀ outs : List (Option (List Nat)),
        (encoderRun initBroadcast outs).2 =
          List.range' 1 (encoderRun initBroadcast outs).1.frame_id
        ∧ ((encoderRun initBroadcast outs).2).Nodup)
    ∧ (∀ s : BroadcastState, encoderStep s none = (s, []))
    ∧ (∀ (s : BroadcastState) (b : List Nat),
        (encoderStep s (some b)).1.frame_id = s.frame_id + 1
        ∧ (encoderStep s (some b)).2 = [s.frame_id + 1]) := by
  refine ⟨rfl, ?_, fun s => rfl, fun s b => ⟨rfl, rfl⟩⟩
  intro outs
  have h := (encoderRun_pubs outs initBroadcast).2
  have hrange : (encoderRun initBroadcast outs).2 =
      List.range' 1 (encoderRun initBroadcast outs).1.frame_id := by
    simpa [initBroadcast] using h
  exact ⟨hrange, by rw [hrange]; exact List.nodup_range' _ _⟩

/-- Witness for C8: with 3 rows pending, an empty-queue timeout at
time 10 commits the batch of 3 immediately and leaves nothing
pending. -/
theorem writer_commit_policy_witness :
    (sqlite_writer_step ⟨0, 3, []⟩ (WEvent.timeout 10)).pending_writes = 0
    ∧ (sqlite_writer_step ⟨0, 3, []⟩ (WEvent.timeout 10)).commits =
        [] ++ (if 0 < 3 then [((10 : Int), 3)] else []) :=
  writer_commit_policy.2.1 ⟨0, 3, []⟩ 10

/-- One session event preserves the session invariant: observed
versions (first components) are pairwise strictly increasing, every
observation is at most the session's last-seen counter, is at least 1,
equals at most the global version current when it was made, which in
turn never exceeded the present global version; and the last-seen
counter never exceeds the global version. -/
theorem sessionStep_inv (s : SessionState) (e : SEvent)
    (h1 : List.Pairwise (· < ·) (s.observed.map Prod.fst))
    (h2 : ∀ p ∈ s.observed,
        p.1 ≤ s.my_last_frame_id ∧ 1 ≤ p.1 ∧ p.1 ≤ p.2 ∧ p.2 ≤ s.version)
    (h3 : s.my_last_frame_id ≤ s.version) :
    List.Pairwise (· < ·) ((sessionStep s e).observed.map Prod.fst)
    ∧ (∀ p ∈ (sessionStep s e).observed,
        p.1 ≤ (sessionStep s e).my_last_frame_id ∧ 1 ≤ p.1 ∧ p.1 ≤ p.2 ∧
          p.2 ≤ (sessionStep s e).version)
    ∧ (sessionStep s e).my_last_frame_id ≤ (sessionStep s e).version := by
  cases e with
  | publish =>
      refine ⟨h1, ?_, by simp [sessionStep]; omega⟩
      intro p hp
      have hs := h2 p hp
      simp only [sessionStep] at hp ⊢
      exact ⟨hs.1, hs.2.1, hs.2.2.1, le_trans hs.2.2.2 (Nat.le_succ _)⟩
  | wake =>
      by_cases h : s.my_last_frame_id < s.version
      · simp only [sessionStep, if_pos h]
        refine ⟨?_, ?_, le_refl _⟩
        · rw [List.map_append, List.pairwise_append]
          refine ⟨h1, List.pairwise_singleton _ _, ?_⟩
          intro x hx y hy
          simp only [List.map_cons, List.map_nil, List.mem_singleton] at hy
          obtain ⟨p, hp, hfst⟩ := List.mem_map.mp hx
          have hple := (h2 p hp).1
          omega
        · intro p hp
          rcases List.mem_append.mp hp with hin | hnew
          · have hs := h2 p hin
            exact ⟨le_trans hs.1 (le_of_lt h), hs.2.1, hs.2.2.1, hs.2.2.2⟩
          · simp only [List.mem_singleton] at hnew
            subst hnew
            refine ⟨le_refl _, by omega, le_refl _, le_refl _⟩
      · simp only [sessionStep, if_neg h]
        exact ⟨h1, h2, h3⟩

/-- The session invariant holds along any event sequence. -/
theorem sessionRun_inv (es : List SEvent) (s : SessionState)
    (h1 : List.Pairwise (· < ·) (s.observed.map Prod.fst))
    (h2 : ∀ p ∈ s.observed,
        p.1 ≤ s.my_last_frame_id ∧ 1 ≤ p.1 ∧ p.1 ≤ p.2 ∧ p.2 ≤ s.version)
    (h3 : s.my_last_frame_id ≤ s.version) :
    List.Pairwise (· < ·) ((sessionRun s es).observed.map Prod.fst)
    ∧ (∀ p ∈ (sessionRun s es).observed,
        p.1 ≤ (sessionRun s es).my_last_frame_id ∧ 1 ≤ p.1 ∧ p.1 ≤ p.2 ∧
          p.2 ≤ (sessionRun s es).version)
    ∧ (sessionRun s es).my_last_frame_id ≤ (sessionRun s es).version := by
  induction es generalizing s with
  | nil => exact ⟨h1, h2, h3⟩
  | cons e rest ih =>
      have hstep := sessionStep_inv s e h1 h2 h3
      exact ih (sessionStep s e) hstep.1 hstep.2.1 hstep.2.2

/-- C1: for every interleaving of publishes and generator wake-ups, a
streaming session's observed versions are pairwise strictly increasing
(hence never repeated), each observation is at least 1 (a version that
was actually published) and at most the global version current at the
moment of observation. -/
theorem imagegenerator_observations (v0 : Nat) (es : List SEvent) :
    List.Pairwise (· < ·) ((sessionRun (initSession v0) es).observed.map Prod.fst)
    ∧ ((sessionRun (initSession v0) es).observed.map Prod.fst).Nodup
    ∧ (∀ p ∈ (sessionRun (initSession v0) es).observed, 1 ≤ p.1 ∧ p.1 ≤ p.2) := by
  have h := sessionRun_inv es (initSession v0)
    (by simp [initSession]) (by simp [initSession]) (by simp [initSession])
  refine ⟨h.1, h.1.imp (fun hlt => Nat.ne_of_lt hlt),
    fun p hp => ⟨(h.2.1 p hp).2.1, (h.2.1 p hp).2.2.1⟩⟩

/-- Witness for C1: a session joining at global version 5 observes
version 6 after the next publish; that observation is at least 1 and
bounded by the global version current when it was made. -/
theorem imagegenerator_observations_witness :
    ((6, 6) ∈ (sessionRun (initSession 5)
        [SEvent.publish, SEvent.wake, SEvent.publish, SEvent.wake]).observed)
    ∧ 1 ≤ 6 ∧ 6 ≤ 6 :=
  ⟨by decide,
    (imagegenerator_observations 5
        [SEvent.publish, SEvent.wake, SEvent.publish, SEvent.wake]).2.2
      (6, 6) (by decide)⟩

end CameraControl
